import Mathlib

/-!
Verification of the pybenchmarks library (src/pybenchmarks/__init__.py)
against its specification, via a shallow embedding of the `benchmark`
routine and its helpers into Lean.

Modelling conventions:
  * Python objects, as far as `benchmark` inspects them, are embedded as
    the inductive type `PyObj`; callables are identified by their
    `__name__` string.
  * Machine floats (wall-clock durations) are modelled as rationals.
  * The external timing machinery (`timeit.Timer`, source lines 177-186)
    is modelled by a `TimerModel` oracle per combination index:
    `timeit n` is the elapsed time measured by `t.timeit(n)` during
    calibration, and `sample j k` is the j-th element of the list
    returned by `t.repeat(r, k)`.  `gc.collect()` (line 199) has no
    observable effect in the model.
  * The memory sampler (`memory_usage`, reading /proc/pid/status, source
    lines 259-299) is an external collaborator per the spec; it is
    modelled by the `Env` fields `memInit` (`none` standing for the
    IOError raised on platforms without the pseudo-file), `memBefore` and
    `memAfter`; only its diffing step (lines 292-297) is embedded, as
    `memoryDelta`.
  * Exceptions become `Except BenchError`; the reserved configuration
    keywords popped on lines 110-121 (`repeat`, `setup`, `memory_usage`,
    `maxloop`, `verbose`) are modelled as explicit fields of `BenchArgs`.
  * `numpy` flat buffers and the final `reshape(shape).T` (lines 250-254)
    are embedded as `Tensor` with an explicit row-major index calculus;
    the dtype `S256` store (lines 152 and 244) truncates to 256
    characters; labels in this model are ASCII, so characters coincide
    with bytes.
-/

namespace Pybench

/-- Embedded Python values, as far as `benchmark` inspects them. -/
inductive PyObj where
  | pyStr : String → PyObj
  | pyCallable : String → PyObj
  | pyInt : ℤ → PyObj
  | pyFloat : ℚ → PyObj
  | pyList : List PyObj → PyObj
  | pyTuple : List PyObj → PyObj
  | pyGen : List PyObj → PyObj
  | pyRange : List PyObj → PyObj

/-- `callable(v)` for embedded values. -/
def isCallableObj : PyObj → Bool
  | .pyCallable _ => true
  | _ => false

/-- `isinstance(v, str)` for embedded values. -/
def isStrObj : PyObj → Bool
  | .pyStr _ => true
  | _ => false

/-- `isinstance(a, _itertypes)` with `_itertypes = (list, tuple,
GeneratorType, XRangeType)` (source line 27). -/
def isIterType : PyObj → Bool
  | .pyList _ => true
  | .pyTuple _ => true
  | .pyGen _ => true
  | .pyRange _ => true
  | _ => false

/-- `tuple(a) if loop else [a]` (source lines 125 and 131-133): a swept
input is expanded into its elements, a fixed input is wrapped into a
length-one sequence. -/
def normalizeInput : PyObj → List PyObj
  | .pyList vs => vs
  | .pyTuple vs => vs
  | .pyGen vs => vs
  | .pyRange vs => vs
  | v => [v]

/-- `itertools.product(*ls)`: Cartesian product, first factor varying
slowest, last factor varying fastest. -/
def pyProduct : List (List α) → List (List α)
  | [] => [[]]
  | l :: ls => l.flatMap (fun a => (pyProduct ls).map (a :: ·))

/-- `_iterkeywords` (source lines 339-344): product over the keyword value
sequences taken in reverse key order, each tuple being reversed back
before it is zipped with the keys. -/
def _iterkeywords (kws : List (String × List PyObj)) :
    List (List (String × PyObj)) :=
  (pyProduct ((kws.map (·.2)).reverse)).map
    (fun vals => (kws.map (·.1)).zip vals.reverse)

/-- `sorted(keywords.keys())` (source line 129): keyword items reordered
by ascending key. Insertion sort computes the same list as the Python
sort because dictionary keys are pairwise distinct. -/
def sortByKey (l : List (String × PyObj)) : List (String × PyObj) :=
  l.insertionSort (fun x y => x.1 ≤ y.1)

/-- Errors raised by `benchmark`. -/
inductive BenchError where
  /-- lines 106-108: a snippet is neither callable nor text, or `stmts`
  has no length. -/
  | typeErrorStmts
  /-- lines 112-114: `setup` is neither callable nor text. -/
  | typeErrorSetup
  /-- line 115: `stmts[0]` on an empty sequence. -/
  | indexError
  /-- lines 115-116: text snippet together with positional values. -/
  | valueErrorArgs
  /-- lines 119-120: `maxloop` below one. -/
  | valueErrorMaxloop
  /-- `max` or `min` applied to an empty sequence (lines 210, 332-336). -/
  | valueErrorEmptySeq
deriving DecidableEq

/-- Sequential effect of a Python `for` loop that collects fallible
results: the first raised exception aborts the whole call. -/
def exceptAll : List (Except BenchError α) → Except BenchError (List α)
  | [] => .ok []
  | x :: rest =>
    match x with
    | .error e => .error e
    | .ok a =>
      match exceptAll rest with
      | .error e => .error e
      | .ok as => .ok (a :: as)

/-- `max(...)` over a generator: raises on an empty sequence. -/
def pyMax (l : List ℕ) : Except BenchError ℕ :=
  match l with
  | [] => .error .valueErrorEmptySeq
  | x :: xs => .ok (xs.foldl max x)

/-! ### numpy tensors

`np.zeros(n)` flat buffers, `reshape(shape)` and `.T` (axis reversal)
with the row-major index calculus. -/

/-- `np.product` of a shape (the empty shape has one cell). -/
def listProd (l : List ℕ) : ℕ := l.prod

/-- Row-major multi-index of flat position `q` in shape `s`. -/
def unflattenIx : List ℕ → ℕ → List ℕ
  | [], _ => []
  | _ :: rest, q => q / listProd rest :: unflattenIx rest (q % listProd rest)

/-- Row-major flat position of multi-index `ix` in shape `s`. -/
def flattenIx : List ℕ → List ℕ → ℕ
  | _ :: rest, j :: js => j * listProd rest + flattenIx rest js
  | _, _ => 0

/-- A dense numpy array: a shape and its row-major data. -/
structure Tensor (α : Type) where
  shape : List ℕ
  data : List α
deriving DecidableEq

/-- `.T`: reverse all axes. Cell `q` of the result (row-major in the
reversed shape) is the cell of `t` at the reversed multi-index. `dflt`
is never read when `t.data` fills its shape. -/
def Tensor.transposeT (t : Tensor α) (dflt : α) : Tensor α :=
  { shape := t.shape.reverse,
    data := (List.range (listProd t.shape.reverse)).map
      (fun q => t.data.getD
        (flattenIx t.shape ((unflattenIx t.shape.reverse q).reverse)) dflt) }

/-! ### The adaptive timer (source lines 188-210) -/

/-- Oracle for one `timeit.Timer`: `timeit n` is the duration measured by
`t.timeit(n)`, and `sample j k` the j-th duration in `t.repeat(r, k)`. -/
structure TimerModel where
  timeit : ℕ → ℚ
  sample : ℕ → ℕ → ℚ

/-- The calibration loop, source lines 189-195:
```
for i in range(10):
    number = 10**i
    if number > maxloop:
        break
    x = t.timeit(number)
    if x >= 0.1:
        break
```
`fuel` counts the remaining iterations; the pair carries the Python
variables `number` and `x`. -/
def calibGo (tm : TimerModel) (maxloop : ℤ) :
    ℕ → ℕ → ℕ → ℚ → ℕ × ℚ
  | 0, _, number, x => (number, x)
  | fuel + 1, i, _, x =>
    let number : ℕ := 10 ^ i
    if (number : ℤ) > maxloop then (number, x)
    else
      let x2 := tm.timeit number
      if x2 ≥ 1 / 10 then (number, x2)
      else calibGo tm maxloop fuel (i + 1) number x2

/-- The calibration phase: run the loop for `i = 0, ..., 9`. The initial
pair is the placeholder for the Python variables before their first
assignment; it is never returned once `maxloop ≥ 1`. -/
def calibrate (tm : TimerModel) (maxloop : ℤ) : ℕ × ℚ :=
  calibGo tm maxloop 10 0 1 0

/-- `t.repeat(n, k)`: a list of `n` timings (empty when `n ≤ 0`). -/
def timerRepeat (tm : TimerModel) (n : ℤ) (k : ℕ) : List ℚ :=
  (List.range n.toNat).map (fun j => tm.sample j k)

/-- The timing data collected for one combination. -/
structure ComboTiming where
  number : ℕ
  x : ℚ
  samples : List ℚ
  best? : Option ℚ
deriving DecidableEq

/-- Source lines 188-210 for one combination: calibrate, cap `number` at
`maxloop`, collect the repeat samples (`r` in the source), and take their
minimum (`best = min(r)`; `none` models the ValueError raised by `min` on
an empty list). `int(repeat // x)` on a positive float `x` is the floor
of the quotient. -/
def runCombo (tm : TimerModel) (repeatN : ℤ) (maxloop : ℤ) : ComboTiming :=
  let c := calibrate tm maxloop
  let number := min c.1 maxloop.toNat
  let x := c.2
  let r : List ℚ :=
    if number = 1 then
      let r2 : ℤ := if x > 1 then ⌊(repeatN : ℚ) / x⌋ else repeatN - 1
      x :: timerRepeat tm r2 1
    else timerRepeat tm repeatN number
  { number := number, x := x, samples := r, best? := r.min? }

/-! ### Label formatting (source lines 302-336) -/

/-- The single-quote character, written by code point. -/
def sq : String := String.mk [Char.ofNat 39]

mutual
/-- Model of the Python builtin `repr` on embedded values (an external
collaborator of `_get_str`; only the length of its output matters to the
source, through the 15-character truncation). Strings are quoted;
callables, generators and ranges are rendered schematically (their real
repr contains a memory address); floats are rendered as rationals. -/
def pyRepr : PyObj → String
  | .pyStr s => sq ++ s ++ sq
  | .pyCallable n => "<function " ++ n ++ ">"
  | .pyInt n => toString n
  | .pyFloat q => toString q
  | .pyList vs => "[" ++ pyReprList vs ++ "]"
  | .pyTuple vs =>
    "(" ++ pyReprList vs ++ (if vs.length == 1 then ",)" else ")")
  | .pyGen _ => "<generator>"
  | .pyRange vs => "range(" ++ toString vs.length ++ ")"

/-- Comma-separated reprs of the elements of a container. -/
def pyReprList : List PyObj → String
  | [] => ""
  | [v] => pyRepr v
  | v :: vs => pyRepr v ++ ", " ++ pyReprList vs
end

/-- `_get_str` (source lines 314-329): prefer `v.__name__`; otherwise the
repr truncated to 15 characters with an ellipsis. The special branches
for f2py fortran wrappers and numpy dtypes concern types absent from the
embedding. -/
def _get_str (v : PyObj) : String :=
  match v with
  | .pyCallable n => n
  | v =>
    let out := pyRepr v
    if out.length > 15 then out.take 15 ++ "..." else out

/-- Python string formatting with a plain width field: left-justify to
width `n` with spaces (no-op when `s` is already at least that wide). -/
def padFmt (s : String) (n : ℕ) : String :=
  s ++ String.mk (List.replicate (n - s.length) ' ')

/-- `_get_info_nspaces` (source lines 332-336): the maximal label width
of each column; `max` raises on an empty sweep. -/
def _get_info_nspaces (stmts : List PyObj) (argsloop : List (List PyObj))
    (keywordsloop : List (String × List PyObj)) :
    Except BenchError (List ℕ) :=
  match pyMax (stmts.map (fun s => (_get_str s).length)) with
  | .error e => .error e
  | .ok a =>
    match exceptAll (argsloop.map
        (fun arg => pyMax (arg.map (fun v => (_get_str v).length)))) with
    | .error e => .error e
    | .ok bs =>
      match exceptAll (keywordsloop.map (fun kv =>
          pyMax (kv.2.map
            (fun v => (kv.1 ++ "=" ++ _get_str v).length)))) with
      | .error e => .error e
      | .ok cs => .ok (a :: (bs ++ cs))

/-- `_get_info` (source lines 302-311): the column-aligned label of one
combination. -/
def _get_info (stmt : Option PyObj) (args : List PyObj)
    (keywords : List (String × PyObj)) (ns : List ℕ) : String :=
  let info :=
    match stmt with
    | some s => padFmt (_get_str s) (ns.headD 0) ++ ": "
    | none => ""
  let table := args.map _get_str ++
    keywords.map (fun kv => kv.1 ++ "=" ++ _get_str kv.2)
  info ++ String.intercalate " "
    ((table.zip ns.tail).map (fun p => padFmt p.1 p.2))

/-- Assignment into the numpy buffer of dtype S256 (source lines 152 and
244): the label is truncated to 256 characters (bytes: the labels of
this model are ASCII). -/
def s256 (s : String) : String := String.mk (s.data.take 256)

/-! ### Verbose output (source lines 219-242) -/

/-- Two-digit rendering of a remainder below one hundred. -/
def twoDigits (m : ℕ) : String :=
  if m < 10 then "0" ++ toString m else toString m

/-- Right-justify to width `n` with spaces. -/
def padLeftStr (s : String) (n : ℕ) : String :=
  String.mk (List.replicate (n - s.length) ' ') ++ s

/-- Python fixed-point formatting with width six and two decimals, as
used in the verbose lines. The binary-float rounding of the Python
formatter is modelled by rational rounding. -/
def fmt62 (q : ℚ) : String :=
  let c : ℤ := round (q * 100)
  let a := c.natAbs
  padLeftStr ((if c < 0 then "-" else "") ++ toString (a / 100) ++ "." ++
    twoDigits (a % 100)) 6

/-- Unit selection, source lines 220-232: scale `usec` into the value
actually printed and its unit. -/
def timeUnit (usec : ℚ) : ℚ × String :=
  if usec < 1 then (usec * 1000, "ns")
  else if usec < 1000 then (usec, "us")
  else if usec < 1000000 then (usec / 1000, "ms")
  else (usec / 1000000, "s")

/-! ### The memory sampler interface -/

/-- `memory_usage(since=before)` (source lines 292-297): the difference
of the two snapshots over their common keys. -/
def memoryDelta (before after : List (String × ℚ)) : List (String × ℚ) :=
  (after.filter (fun kv => (before.lookup kv.1).isSome)).map
    (fun kv => (kv.1, kv.2 - ((before.lookup kv.1).getD 0)))

/-- The external world of one `benchmark` call: one timer per combination
index, and the memory snapshots. `memInit = none` models the IOError
raised by the first `memory_usage()` call (lines 156-159). -/
structure Env where
  timer : ℕ → TimerModel
  memInit : Option (List (String × ℚ))
  memBefore : ℕ → List (String × ℚ)
  memAfter : ℕ → List (String × ℚ)

/-! ### The `benchmark` entry point (source lines 30-256) -/

/-- The arguments of one `benchmark` call. The reserved configuration
keywords popped on source lines 110-121 are explicit fields; `keywords`
holds only the sweep variables (a Python dict: keys are distinct). -/
structure BenchArgs where
  stmts0 : PyObj
  args : List PyObj
  keywords : List (String × PyObj)
  repeatN : ℤ
  setup : PyObj
  memory_usage_req : Bool
  maxloop : ℤ
  verbose : ℤ

/-- Source lines 101-105: wrap a single callable or text snippet into a
one-element sequence with an empty statement axis; a sequence keeps its
elements and contributes an axis of its length; anything else has no
`len` and raises a TypeError. -/
def stmtsSeq (s : PyObj) : Option (List PyObj × List ℕ) :=
  if isCallableObj s || isStrObj s then some ([s], [])
  else
    match s with
    | .pyList l => some (l, [l.length])
    | .pyTuple l => some (l, [l.length])
    | _ => none

/-- The eager validation of source lines 101-121, in source order:
`stmts` shape and element types, `setup` type, text snippet with
positional values (checked on `stmts[0]` only), and `maxloop < 1`. -/
def validate (b : BenchArgs) : Except BenchError (List PyObj × List ℕ) :=
  match stmtsSeq b.stmts0 with
  | none => .error .typeErrorStmts
  | some (stmts, shape_stmts) =>
    if stmts.any (fun s => !(isCallableObj s || isStrObj s)) then
      .error .typeErrorStmts
    else if !(isCallableObj b.setup || isStrObj b.setup) then
      .error .typeErrorSetup
    else
      match stmts.head? with
      | none => .error .indexError
      | some s0 =>
        if isStrObj s0 && decide (0 < b.args.length) then
          .error .valueErrorArgs
        else if b.maxloop < 1 then .error .valueErrorMaxloop
        else .ok (stmts, shape_stmts)

/-- `isloopa` (source line 124). -/
def isloopaOf (b : BenchArgs) : List Bool := b.args.map isIterType

/-- The normalized `args` (source line 125). -/
def argsNOf (b : BenchArgs) : List (List PyObj) := b.args.map normalizeInput

/-- `argsloop` (source line 126): the swept positional sequences, in
declaration order. -/
def argsloopOf (b : BenchArgs) : List (List PyObj) :=
  (((argsNOf b).zip (isloopaOf b)).filter (·.2)).map (·.1)

/-- `isloopk` (source line 130), over the key-sorted items. -/
def isloopkOf (b : BenchArgs) : List Bool :=
  (sortByKey b.keywords).map (fun kv => isIterType kv.2)

/-- The normalized `keywords` (source lines 131-133), key-sorted. -/
def keywordsNOf (b : BenchArgs) : List (String × List PyObj) :=
  (sortByKey b.keywords).map (fun kv => (kv.1, normalizeInput kv.2))

/-- `keywordsloop` (source lines 134-135): the swept keyword sequences,
in ascending key order. -/
def keywordsloopOf (b : BenchArgs) : List (String × List PyObj) :=
  (((keywordsNOf b).zip (isloopkOf b)).filter (·.2)).map (·.1)

/-- The reshape shape (source lines 140-142): reversed swept positional
lengths, then reversed swept keyword lengths, then the statement axis. -/
def shapeOf (b : BenchArgs) (shape_stmts : List ℕ) : List ℕ :=
  ((argsloopOf b).map List.length).reverse ++
    ((keywordsloopOf b).map (fun kv => kv.2.length)).reverse ++ shape_stmts

/-- One element of `iterinputs` (source line 139). -/
structure ComboIn where
  arg : List PyObj
  kw : List (String × PyObj)
  stmt : PyObj

/-- `iterinputs = itertools.product(iterargs, iterkeys, stmts)` (source
lines 137-139), flattened in enumeration order. -/
def combosOf (b : BenchArgs) (stmts : List PyObj) : List ComboIn :=
  (pyProduct (argsNOf b)).flatMap (fun a =>
    (_iterkeywords (keywordsNOf b)).flatMap (fun kw =>
      stmts.map (fun st => ⟨a, kw, st⟩)))

/-- The pre-pass computing the column widths (source line 172). -/
def nspacesOf (b : BenchArgs) (stmts : List PyObj) :
    Except BenchError (List ℕ) :=
  _get_info_nspaces stmts (argsloopOf b) (keywordsloopOf b)

/-- The label of one combination (source lines 214-218): the statement
column only when a statement sequence was supplied, and only the swept
inputs. -/
def comboLabel (b : BenchArgs) (shape_stmts : List ℕ) (ns : List ℕ)
    (c : ComboIn) : String :=
  let stmloop := if shape_stmts.isEmpty then none else some c.stmt
  let argloop := ((c.arg.zip (isloopaOf b)).filter (·.2)).map (·.1)
  let keyloop := ((c.kw.zip (isloopkOf b)).filter (·.2)).map (·.1)
  _get_info stmloop argloop keyloop ns

/-- Everything the loop body records for one combination. -/
structure ComboOut where
  ct : ComboTiming
  best : ℚ
  label : String
  mem : List (String × ℚ)

/-- The loop body (source lines 175-248) for the combination at
enumeration index `i`. -/
def comboOutOf (env : Env) (b : BenchArgs) (shape_stmts ns : List ℕ)
    (do_mem : Bool) (i : ℕ) (c : ComboIn) : Except BenchError ComboOut :=
  let ct := runCombo (env.timer i) b.repeatN b.maxloop
  match ct.best? with
  | none => .error .valueErrorEmptySeq
  | some best =>
    .ok { ct := ct, best := best,
          label := comboLabel b shape_stmts ns c,
          mem := if do_mem then
            memoryDelta (env.memBefore i) (env.memAfter i) else [] }

/-- The whole loop, in enumeration order; the first exception aborts. -/
def comboOutsOf (env : Env) (b : BenchArgs) (stmts : List PyObj)
    (shape_stmts ns : List ℕ) (do_mem : Bool) :
    Except BenchError (List ComboOut) :=
  exceptAll ((combosOf b stmts).enum.map
    (fun ic => comboOutOf env b shape_stmts ns do_mem ic.1 ic.2))

/-- Source lines 155-161: the initial memory snapshot. An IOError is
caught once and demotes the run to `do_memory = False`; otherwise the
snapshot keys become the per-metric result keys. The third component
counts the sampler invocations made at setup. -/
def memSetup (env : Env) (req : Bool) : Bool × List String × ℕ :=
  if req then
    match env.memInit with
    | none => (false, [], 1)
    | some m => (true, m.map (·.1), 1)
  else (false, [], 0)

/-- One verbose line (source lines 219-242). -/
def msgOf (b : BenchArgs) (do_mem : Bool) (o : ComboOut) : String :=
  let usec := o.best * 1000000 / (o.ct.number : ℚ)
  let vu := timeUnit usec
  let core :=
    if b.verbose = 1 then
      o.label ++ " " ++ fmt62 vu.1 ++ " " ++ vu.2
    else
      o.label ++ (if o.label = "" then "" else ": ") ++
        toString o.ct.number ++ " loops, best of " ++
        toString o.ct.samples.length ++ ": " ++ fmt62 vu.1 ++ " " ++
        vu.2 ++ " per loop"
  if do_mem then
    core ++ ". " ++ String.intercalate ", "
      (o.mem.map (fun kv => kv.1 ++ ":" ++ toString kv.2 ++ "MiB"))
  else core

/-- The value returned by `benchmark`, together with two side-effect
traces: `memCalls` counts the memory sampler invocations, `printed` the
verbose lines in print order. The `variables` and `setup` echo entries
of the result dictionary carry no computation and are omitted. -/
structure BenchResult where
  info : Tensor String
  time : Tensor ℚ
  mem : List (String × Tensor ℚ)
  memCalls : ℕ
  printed : List String
deriving DecidableEq

/-- Source lines 244-254: fill the flat buffers in enumeration order,
then `reshape(shape).T` each of them. -/
def assembleResult (b : BenchArgs) (shape : List ℕ) (memKeys : List String)
    (do_mem : Bool) (initCalls : ℕ) (outs : List ComboOut) : BenchResult :=
  let infoFlat := outs.map (fun o => s256 o.label)
  let timeFlat := outs.map (fun o => o.best / (o.ct.number : ℚ))
  { info := (Tensor.mk shape infoFlat).transposeT "",
    time := (Tensor.mk shape timeFlat).transposeT 0,
    mem := memKeys.map (fun k =>
      (k, (Tensor.mk shape (outs.map
        (fun o => (o.mem.lookup k).getD 0))).transposeT 0)),
    memCalls := initCalls + (if do_mem then 2 * outs.length else 0),
    printed := if b.verbose > 0 then outs.map (msgOf b do_mem) else [] }

/-- Source lines 124-256 after validation: normalization, memory setup,
column widths, the loop, and the final assembly. -/
def runBench (env : Env) (b : BenchArgs) (stmts : List PyObj)
    (shape_stmts : List ℕ) : Except BenchError BenchResult :=
  let shape := shapeOf b shape_stmts
  let ms := memSetup env b.memory_usage_req
  match nspacesOf b stmts with
  | .error e => .error e
  | .ok ns =>
    match comboOutsOf env b stmts shape_stmts ns ms.1 with
    | .error e => .error e
    | .ok outs => .ok (assembleResult b shape ms.2.1 ms.1 ms.2.2 outs)

/-- The `benchmark` entry point (source lines 30-256). -/
def benchmark (env : Env) (b : BenchArgs) : Except BenchError BenchResult :=
  match validate b with
  | .error e => .error e
  | .ok p => runBench env b p.1 p.2

/-! ## Helper lemmas -/

theorem exceptAll_ok_length {l : List (Except BenchError α)} {as : List α}
    (h : exceptAll l = .ok as) : as.length = l.length := by
  induction l generalizing as with
  | nil => simp only [exceptAll] at h; cases h; rfl
  | cons x rest ih =>
    simp only [exceptAll] at h
    cases x with
    | error e => simp at h
    | ok a =>
      cases h2 : exceptAll rest with
      | error e => rw [h2] at h; simp at h
      | ok as2 =>
        rw [h2] at h
        simp only [Except.ok.injEq] at h
        subst h
        simp [ih h2]

theorem exceptAll_ok_get? {l : List (Except BenchError α)} {as : List α}
    (h : exceptAll l = .ok as) (i : ℕ) : l.get? i = (as.get? i).map .ok := by
  induction l generalizing as i with
  | nil => simp only [exceptAll] at h; cases h; simp
  | cons x rest ih =>
    simp only [exceptAll] at h
    cases x with
    | error e => simp at h
    | ok a =>
      cases h2 : exceptAll rest with
      | error e => rw [h2] at h; simp at h
      | ok as2 =>
        rw [h2] at h
        simp only [Except.ok.injEq] at h
        subst h
        cases i with
        | zero => simp
        | succ j => simpa using ih h2 j

theorem listProd_pos_of_lt {s : List ℕ} {q d : ℕ}
    (h : q < d * listProd s) : 0 < listProd s := by
  rcases Nat.eq_zero_or_pos (listProd s) with h0 | h0
  · rw [h0, Nat.mul_zero] at h; exact absurd h (Nat.not_lt_zero q)
  · exact h0

theorem unflattenIx_valid : ∀ (s : List ℕ) (q : ℕ), q < listProd s →
    List.Forall₂ (· < ·) (unflattenIx s q) s := by
  intro s
  induction s with
  | nil => intro q hq; exact List.Forall₂.nil
  | cons d rest ih =>
    intro q hq
    have hq' : q < d * listProd rest := by
      simpa [listProd, List.prod_cons] using hq
    have hpos : 0 < listProd rest := listProd_pos_of_lt hq'
    refine List.Forall₂.cons ?_ (ih _ (Nat.mod_lt q hpos))
    exact (Nat.div_lt_iff_lt_mul hpos).mpr (by omega)

theorem flattenIx_lt {ix s : List ℕ}
    (h : List.Forall₂ (· < ·) ix s) : flattenIx s ix < listProd s := by
  induction h with
  | nil => simp [flattenIx, listProd]
  | @cons j d ix' s' hjd _ ih
  =>
    have h1 : flattenIx (d :: s') (j :: ix') =
        j * listProd s' + flattenIx s' ix' := rfl
    have h2 : listProd (d :: s') = d * listProd s' := by
      simp [listProd, List.prod_cons]
    rw [h1, h2]
    have hpos : 0 < listProd s' := by
      rcases Nat.eq_zero_or_pos (listProd s') with h0 | h0
      · rw [h0] at ih; exact absurd ih (Nat.not_lt_zero _)
      · exact h0
    calc j * listProd s' + flattenIx s' ix'
        < j * listProd s' + listProd s' := by omega
      _ = (j + 1) * listProd s' := by ring
      _ ≤ d * listProd s' := Nat.mul_le_mul_right _ (by omega)

theorem listProd_reverse (s : List ℕ) : listProd s.reverse = listProd s :=
  List.prod_reverse s

theorem transposeT_shape (t : Tensor α) (d : α) :
    (t.transposeT d).shape = t.shape.reverse := rfl

theorem transposeT_data_mem {t : Tensor α} {d : α}
    (hlen : t.data.length = listProd t.shape) :
    ∀ v ∈ (t.transposeT d).data,
      ∃ j : ℕ, ∃ hj : j < t.data.length, v = t.data.get ⟨j, hj⟩ := by
  intro v hv
  simp only [Tensor.transposeT, List.mem_map, List.mem_range] at hv
  obtain ⟨q, hq, hval⟩ := hv
  rw [listProd_reverse] at hq
  have hvalid0 : List.Forall₂ (· < ·) (unflattenIx t.shape.reverse q)
      t.shape.reverse :=
    unflattenIx_valid _ _ (by rwa [listProd_reverse])
  have hvalid : List.Forall₂ (· < ·)
      (unflattenIx t.shape.reverse q).reverse t.shape := by
    have := List.rel_reverse hvalid0
    simpa using this
  have hlt : flattenIx t.shape (unflattenIx t.shape.reverse q).reverse <
      t.data.length := by
    rw [hlen]; exact flattenIx_lt hvalid
  refine ⟨_, hlt, ?_⟩
  rw [← hval]
  exact List.getD_eq_get t.data d hlt

theorem length_flatMap_const {l : List α} {f : α → List β} {c : ℕ}
    (h : ∀ a ∈ l, (f a).length = c) : (l.flatMap f).length = l.length * c := by
  induction l with
  | nil => simp
  | cons a l ih =>
    simp only [List.flatMap_cons, List.length_append, List.length_cons]
    rw [h a (by simp), ih (fun x hx => h x (by simp [hx]))]
    ring

theorem length_pyProduct (ls : List (List α)) :
    (pyProduct ls).length = listProd (ls.map List.length) := by
  induction ls with
  | nil => simp [pyProduct, listProd]
  | cons l ls ih =>
    simp only [pyProduct, List.map_cons]
    rw [length_flatMap_const (c := (pyProduct ls).length) (fun a _ => by simp)]
    rw [ih]
    simp [listProd, List.prod_cons]

theorem mem_pyProduct {ls : List (List α)} :
    ∀ out ∈ pyProduct ls, List.Forall₂ (· ∈ ·) out ls := by
  induction ls with
  | nil =>
    intro out hout
    simp only [pyProduct, List.mem_singleton] at hout
    subst hout
    exact List.Forall₂.nil
  | cons l ls ih =>
    intro out hout
    simp only [pyProduct, List.mem_flatMap, List.mem_map] at hout
    obtain ⟨a, ha, rest, hrest, hout⟩ := hout
    subst hout
    exact List.Forall₂.cons ha (ih rest hrest)

theorem length_iterkeywords (kws : List (String × List PyObj)) :
    (_iterkeywords kws).length =
      listProd (kws.map (fun kv => kv.2.length)) := by
  simp only [_iterkeywords, List.length_map, length_pyProduct,
    List.map_reverse, List.map_map]
  rw [listProd_reverse]
  rfl

theorem normalizeInput_length_one {a : PyObj} (h : isIterType a = false) :
    (normalizeInput a).length = 1 := by
  cases a <;> simp_all [isIterType, normalizeInput]

theorem argsloopOf_eq (b : BenchArgs) :
    argsloopOf b = (b.args.filter isIterType).map normalizeInput := by
  unfold argsloopOf argsNOf isloopaOf
  rw [List.zip_map' normalizeInput isIterType b.args]
  rw [List.filter_map, List.map_map]
  rfl

theorem keywordsloopOf_eq (b : BenchArgs) :
    keywordsloopOf b =
      ((sortByKey b.keywords).filter (fun kv => isIterType kv.2)).map
        (fun kv => (kv.1, normalizeInput kv.2)) := by
  unfold keywordsloopOf keywordsNOf isloopkOf
  rw [List.zip_map' (fun kv : String × PyObj => (kv.1, normalizeInput kv.2))
    (fun kv : String × PyObj => isIterType kv.2) (sortByKey b.keywords)]
  rw [List.filter_map, List.map_map]
  rfl

theorem listProd_filter_norm (args : List PyObj) :
    listProd (((args.filter isIterType).map normalizeInput).map List.length)
      = listProd ((args.map normalizeInput).map List.length) := by
  induction args with
  | nil => rfl
  | cons a args ih =>
    cases ha : isIterType a with
    | true =>
      simp only [List.filter_cons, ha, List.map_cons, listProd,
        List.prod_cons, if_true]
      simp only [listProd] at ih
      rw [ih]
    | false =>
      simp only [List.filter_cons, ha, List.map_cons, listProd,
        List.prod_cons, Bool.false_eq_true, if_false]
      simp only [listProd] at ih
      rw [ih, normalizeInput_length_one ha, Nat.one_mul]

theorem listProd_filter_normKw (l : List (String × PyObj)) :
    listProd (((l.filter (fun kv => isIterType kv.2)).map
        (fun kv => (kv.1, normalizeInput kv.2))).map (fun kv => kv.2.length))
      = listProd ((l.map (fun kv => (kv.1, normalizeInput kv.2))).map
        (fun kv => kv.2.length)) := by
  induction l with
  | nil => rfl
  | cons a l ih =>
    cases ha : isIterType a.2 with
    | true =>
      simp only [List.filter_cons, ha, List.map_cons, listProd,
        List.prod_cons, if_true]
      simp only [listProd] at ih
      rw [ih]
    | false =>
      simp only [List.filter_cons, ha, List.map_cons, listProd,
        List.prod_cons, Bool.false_eq_true, if_false]
      simp only [listProd] at ih
      rw [ih, normalizeInput_length_one ha, Nat.one_mul]

theorem length_combosOf (b : BenchArgs) (stmts : List PyObj) :
    (combosOf b stmts).length =
      listProd ((argsNOf b).map List.length) *
        (listProd ((keywordsNOf b).map (fun kv => kv.2.length)) *
          stmts.length) := by
  unfold combosOf
  rw [length_flatMap_const
    (c := (_iterkeywords (keywordsNOf b)).length * stmts.length)]
  · rw [length_pyProduct, length_iterkeywords]
  · intro a _
    rw [length_flatMap_const (c := stmts.length) (fun kw _ => by simp)]

theorem stmtsSeq_shape {s0 : PyObj} {stmts : List PyObj} {ss : List ℕ}
    (h : stmtsSeq s0 = some (stmts, ss)) :
    (ss = [] ∧ stmts.length = 1) ∨ ss = [stmts.length] := by
  cases s0 <;>
    simp only [stmtsSeq, isCallableObj, isStrObj, Bool.or_self, Bool.true_or,
      Bool.or_true, Bool.false_or, Bool.or_false, if_true, if_false,
      Bool.false_eq_true, Option.some.injEq, Prod.mk.injEq] at h <;>
    first
      | exact Or.inl ⟨h.2.symm, by rw [← h.1]; rfl⟩
      | exact Or.inr (by rw [← h.2, ← h.1])
      | exact absurd h (by simp)

theorem stmtsSeq_prod {s0 : PyObj} {stmts : List PyObj} {ss : List ℕ}
    (h : stmtsSeq s0 = some (stmts, ss)) : listProd ss = stmts.length := by
  rcases stmtsSeq_shape h with ⟨h1, h2⟩ | h1
  · rw [h1]
    simp only [listProd, List.prod_nil]
    omega
  · rw [h1]
    simp only [listProd, List.prod_cons, List.prod_nil, Nat.mul_one]

theorem validate_ok_facts {b : BenchArgs} {stmts : List PyObj} {ss : List ℕ}
    (h : validate b = .ok (stmts, ss)) :
    stmtsSeq b.stmts0 = some (stmts, ss) ∧ 1 ≤ b.maxloop := by
  unfold validate at h
  cases hs : stmtsSeq b.stmts0 with
  | none => rw [hs] at h; exact absurd h (by simp)
  | some p =>
    obtain ⟨st, sh⟩ := p
    rw [hs] at h
    dsimp only at h
    repeat' split at h
    any_goals exact Except.noConfusion h
    simp only [Except.ok.injEq, Prod.mk.injEq] at h
    obtain ⟨h1, h2⟩ := h
    subst h1
    subst h2
    exact ⟨rfl, by omega⟩

theorem prod_shapeOf (b : BenchArgs) {stmts : List PyObj} {ss : List ℕ}
    (hss : listProd ss = stmts.length) :
    listProd (shapeOf b ss) = (combosOf b stmts).length := by
  unfold shapeOf
  rw [length_combosOf]
  simp only [listProd] at *
  rw [List.prod_append, List.prod_append, List.prod_reverse,
    List.prod_reverse]
  have h1 : (List.map List.length (argsloopOf b)).prod =
      (List.map List.length (argsNOf b)).prod := by
    rw [argsloopOf_eq]
    have := listProd_filter_norm b.args
    simpa [listProd, argsNOf] using this
  have h2 : (List.map (fun kv => kv.2.length) (keywordsloopOf b)).prod =
      (List.map (fun kv => kv.2.length) (keywordsNOf b)).prod := by
    rw [keywordsloopOf_eq]
    have := listProd_filter_normKw (sortByKey b.keywords)
    simpa [listProd, keywordsNOf] using this
  rw [h1, h2, hss]
  ring

theorem benchmark_ok_elim {env : Env} {b : BenchArgs} {res : BenchResult}
    (h : benchmark env b = .ok res) :
    ∃ stmts ss ns outs,
      validate b = .ok (stmts, ss) ∧
      nspacesOf b stmts = .ok ns ∧
      comboOutsOf env b stmts ss ns (memSetup env b.memory_usage_req).1 =
        .ok outs ∧
      res = assembleResult b (shapeOf b ss)
        (memSetup env b.memory_usage_req).2.1
        (memSetup env b.memory_usage_req).1
        (memSetup env b.memory_usage_req).2.2 outs := by
  unfold benchmark at h
  cases hv : validate b with
  | error e => rw [hv] at h; exact absurd h (by simp)
  | ok p =>
    obtain ⟨stmts, ss⟩ := p
    rw [hv] at h
    dsimp only at h
    unfold runBench at h
    dsimp only at h
    cases hn : nspacesOf b stmts with
    | error e => rw [hn] at h; exact absurd h (by simp)
    | ok ns =>
      rw [hn] at h
      dsimp only at h
      cases hc : comboOutsOf env b stmts ss ns
          (memSetup env b.memory_usage_req).1 with
      | error e => rw [hc] at h; exact absurd h (by simp)
      | ok outs =>
        rw [hc] at h
        dsimp only at h
        simp only [Except.ok.injEq] at h
        exact ⟨stmts, ss, ns, outs, rfl, hn, hc, h.symm⟩

theorem comboOutsOf_ok_get {env : Env} {b : BenchArgs}
    {stmts : List PyObj} {ss ns : List ℕ} {dm : Bool} {outs : List ComboOut}
    (h : comboOutsOf env b stmts ss ns dm = .ok outs)
    (j : ℕ) (hj : j < outs.length) :
    ∃ c bst, (combosOf b stmts).get? j = some c ∧
      (runCombo (env.timer j) b.repeatN b.maxloop).best? = some bst ∧
      outs.get ⟨j, hj⟩ =
        ⟨runCombo (env.timer j) b.repeatN b.maxloop, bst,
          comboLabel b ss ns c,
          if dm then memoryDelta (env.memBefore j) (env.memAfter j)
            else []⟩ := by
  unfold comboOutsOf at h
  have hget := exceptAll_ok_get? h j
  have hsome : outs.get? j = some (outs.get ⟨j, hj⟩) := List.get?_eq_get hj
  rw [hsome] at hget
  dsimp only [Option.map] at hget
  rw [List.get?_eq_getElem?] at hget
  rw [List.getElem?_map] at hget
  rw [List.getElem?_enum] at hget
  cases hc : (combosOf b stmts)[j]? with
  | none => rw [hc] at hget; simp [Option.map] at hget
  | some c =>
    rw [hc] at hget
    simp only [Option.map, Option.some.injEq] at hget
    unfold comboOutOf at hget
    dsimp only at hget
    cases hb : (runCombo (env.timer j) b.repeatN b.maxloop).best? with
    | none => rw [hb] at hget; simp at hget
    | some bst =>
      rw [hb] at hget
      simp only [Except.ok.injEq] at hget
      refine ⟨c, bst, ?_, rfl, hget.symm⟩
      rw [List.get?_eq_getElem?, hc]

/-- The stop condition of the calibration loop at exponent `j`: either
`10^j` already exceeds `maxloop`, or timing `10^j` loops took at least a
tenth of a second. -/
def calibStop (tm : TimerModel) (maxloop : ℤ) (j : ℕ) : Prop :=
  ((10 ^ j : ℕ) : ℤ) > maxloop ∨ tm.timeit (10 ^ j) ≥ 1 / 10

instance (tm : TimerModel) (maxloop : ℤ) (j : ℕ) :
    Decidable (calibStop tm maxloop j) := by
  unfold calibStop; infer_instance

theorem calibGo_spec (tm : TimerModel) (maxloop : ℤ) :
    ∀ fuel i n0 x0, 0 < fuel →
      ∃ d, d < fuel ∧
        (calibGo tm maxloop fuel i n0 x0).1 = 10 ^ (i + d) ∧
        (∀ e < d, ¬ calibStop tm maxloop (i + e)) ∧
        (calibStop tm maxloop (i + d) ∨ d = fuel - 1) := by
  intro fuel
  induction fuel with
  | zero => intro i n0 x0 h; exact absurd h (by omega)
  | succ fuel ih =>
    intro i n0 x0 _
    by_cases h1 : ((10 ^ i : ℕ) : ℤ) > maxloop
    · refine ⟨0, by omega, ?_, by omega, Or.inl (Or.inl h1)⟩
      have hgo : calibGo tm maxloop (fuel + 1) i n0 x0 = (10 ^ i, x0) := by
        unfold calibGo
        dsimp only
        rw [if_pos h1]
      rw [hgo]
      simp
    · by_cases h2 : tm.timeit (10 ^ i) ≥ 1 / 10
      · refine ⟨0, by omega, ?_, by omega, Or.inl (Or.inr h2)⟩
        have hgo : calibGo tm maxloop (fuel + 1) i n0 x0 =
            (10 ^ i, tm.timeit (10 ^ i)) := by
          unfold calibGo
          dsimp only
          rw [if_neg h1, if_pos h2]
        rw [hgo]
        simp
      · have hgo : calibGo tm maxloop (fuel + 1) i n0 x0 =
            calibGo tm maxloop fuel (i + 1) (10 ^ i) (tm.timeit (10 ^ i)) := by
          conv_lhs => unfold calibGo
          dsimp only
          rw [if_neg h1, if_neg h2]
        rcases Nat.eq_zero_or_pos fuel with hf | hf
        · subst hf
          refine ⟨0, by omega, ?_, by omega, Or.inr rfl⟩
          rw [hgo]
          simp [calibGo]
        · obtain ⟨d, hd, hres, hall, hstop⟩ :=
            ih (i + 1) (10 ^ i) (tm.timeit (10 ^ i)) hf
          refine ⟨d + 1, by omega, ?_, ?_, ?_⟩
          · rw [hgo, hres]
            congr 1
            omega
          · intro e he
            cases e with
            | zero =>
              intro hc
              exact hc.elim h1 h2
            | succ e2 =>
              have : i + (e2 + 1) = i + 1 + e2 := by omega
              rw [this]
              exact hall e2 (by omega)
          · rcases hstop with hl | hr
            · left
              have : i + (d + 1) = i + 1 + d := by omega
              rw [this]
              exact hl
            · right
              omega

/-- The capped loop count (source line 196) as a field of `runCombo`. -/
theorem runCombo_number (tm : TimerModel) (rep ml : ℤ) :
    (runCombo tm rep ml).number = min (calibrate tm ml).1 ml.toNat := rfl

/-- The calibration duration carried into the repeat phase. -/
theorem runCombo_x (tm : TimerModel) (rep ml : ℤ) :
    (runCombo tm rep ml).x = (calibrate tm ml).2 := rfl

/-- The repeat phase (source lines 202-209) in terms of the record
fields. -/
theorem runCombo_samples_eq (tm : TimerModel) (rep ml : ℤ) :
    (runCombo tm rep ml).samples =
      if (runCombo tm rep ml).number = 1 then
        (runCombo tm rep ml).x ::
          timerRepeat tm
            (if (runCombo tm rep ml).x > 1
              then ⌊(rep : ℚ) / (runCombo tm rep ml).x⌋ else rep - 1) 1
      else timerRepeat tm rep (runCombo tm rep ml).number := rfl

/-- `best = min(r)` (source line 210) as a field of `runCombo`. -/
theorem runCombo_best (tm : TimerModel) (rep ml : ℤ) :
    (runCombo tm rep ml).best? = (runCombo tm rep ml).samples.min? := rfl

/-! ## Claim theorems -/

/-- C2: for every combination, the calibration phase tries `number = 10^i`
for `i = 0, 1, ..., 9` and keeps the smallest such power of ten at which
either the measured elapsed time reaches 0.1 seconds or `10^i` exceeds
`maxloop` (keeping `10^9` when neither occurs within the ten iterations),
and the chosen `number` is then capped at `maxloop`. -/
theorem C2_calibration (tm : TimerModel) (maxloop repeatN : ℤ)
    (h : 1 ≤ maxloop) :
    ∃ i : ℕ, i ≤ 9 ∧ (calibrate tm maxloop).1 = 10 ^ i ∧
      (∀ j < i, ¬ calibStop tm maxloop j) ∧
      (calibStop tm maxloop i ∨ i = 9) ∧
      (runCombo tm repeatN maxloop).number = min (10 ^ i) maxloop.toNat ∧
      ((runCombo tm repeatN maxloop).number : ℤ) ≤ maxloop := by
  obtain ⟨d, hd, hres, hall, hstop⟩ :=
    calibGo_spec tm maxloop 10 0 1 0 (by omega)
  simp only [Nat.zero_add] at hres hall hstop
  have hnum : (runCombo tm repeatN maxloop).number =
      min (10 ^ d) maxloop.toNat := by
    rw [runCombo_number]
    unfold calibrate
    rw [hres]
  refine ⟨d, by omega, hres, hall, ?_, hnum, ?_⟩
  · rcases hstop with hl | hr
    · exact Or.inl hl
    · exact Or.inr (by omega)
  · rw [hnum]
    calc ((min (10 ^ d) maxloop.toNat : ℕ) : ℤ)
        ≤ (maxloop.toNat : ℤ) := by exact_mod_cast Nat.min_le_right _ _
      _ = maxloop := Int.toNat_of_nonneg (by omega)

/-- A timer for which running one loop takes no measurable time and ten
loops take one second. -/
def tmC2W : TimerModel :=
  { timeit := fun n => if 10 ≤ n then 1 else 0, sample := fun _ _ => 1 }

/-- Witness for C2 at a concrete timer: calibration stops at `10^1`. -/
theorem C2_calibration_witness :
    (1 : ℤ) ≤ 100 ∧
      (∃ i : ℕ, i ≤ 9 ∧ (calibrate tmC2W 100).1 = 10 ^ i ∧
        (∀ j < i, ¬ calibStop tmC2W 100 j) ∧
        (calibStop tmC2W 100 i ∨ i = 9) ∧
        (runCombo tmC2W 3 100).number = min (10 ^ i) (100 : ℤ).toNat ∧
        ((runCombo tmC2W 3 100).number : ℤ) ≤ 100) :=
  ⟨by norm_num, C2_calibration tmC2W 100 3 (by norm_num)⟩

/-- A timer whose calibration ends with `number = 10` and `x = 1`, while
every repeat sample equals two. -/
def tmC3W : TimerModel :=
  { timeit := fun n => if n = 1 then 1 / 100 else 1, sample := fun _ _ => 2 }

/-- C3 counterexample: a combination whose capped loop count is ten, not
one. The claim asserts that outside the reduction case the calibration
sample is reused as one of the repeats, but here the collected samples
are fresh and do not contain the calibration duration. -/
theorem C3_repeat_counterexample :
    (runCombo tmC3W 3 100).number = 10 ∧
    (runCombo tmC3W 3 100).x = 1 ∧
    (runCombo tmC3W 3 100).samples = [2, 2, 2] ∧
    (runCombo tmC3W 3 100).x ∉ (runCombo tmC3W 3 100).samples := by
  with_unfolding_all decide

/-- C3 amended: when `number = 1` and `x > 1` the extra repeats are the
`floor(repeat / x)` fresh single-loop timings and the calibration sample
is still kept as the first sample; when `number = 1` and `x ≤ 1` the
calibration sample is reused ahead of `repeat - 1` fresh timings; when
`number ≠ 1` the samples are `repeat` fresh timings without the
calibration sample; in every case the reported best is the minimum of
the collected samples. -/
theorem C3_repeat_policy (tm : TimerModel) (rep ml : ℤ) :
    ((runCombo tm rep ml).number = 1 → (runCombo tm rep ml).x > 1 →
      (runCombo tm rep ml).samples =
        (runCombo tm rep ml).x ::
          timerRepeat tm ⌊(rep : ℚ) / (runCombo tm rep ml).x⌋ 1) ∧
    ((runCombo tm rep ml).number = 1 → ¬ (runCombo tm rep ml).x > 1 →
      (runCombo tm rep ml).samples =
        (runCombo tm rep ml).x :: timerRepeat tm (rep - 1) 1) ∧
    ((runCombo tm rep ml).number ≠ 1 →
      (runCombo tm rep ml).samples =
        timerRepeat tm rep (runCombo tm rep ml).number) ∧
    (runCombo tm rep ml).best? = (runCombo tm rep ml).samples.min? := by
  refine ⟨?_, ?_, ?_, rfl⟩
  · intro h1 h2
    rw [runCombo_samples_eq, if_pos h1, if_pos h2]
  · intro h1 h2
    rw [runCombo_samples_eq, if_pos h1, if_neg h2]
  · intro h1
    rw [runCombo_samples_eq, if_neg h1]

/-- Witness for the amended C3 at the concrete timer of the
counterexample. -/
theorem C3_repeat_policy_witness :
    ((runCombo tmC3W 3 100).number = 1 → (runCombo tmC3W 3 100).x > 1 →
      (runCombo tmC3W 3 100).samples =
        (runCombo tmC3W 3 100).x ::
          timerRepeat tmC3W ⌊((3 : ℤ) : ℚ) / (runCombo tmC3W 3 100).x⌋ 1) ∧
    ((runCombo tmC3W 3 100).number = 1 → ¬ (runCombo tmC3W 3 100).x > 1 →
      (runCombo tmC3W 3 100).samples =
        (runCombo tmC3W 3 100).x :: timerRepeat tmC3W ((3 : ℤ) - 1) 1) ∧
    ((runCombo tmC3W 3 100).number ≠ 1 →
      (runCombo tmC3W 3 100).samples =
        timerRepeat tmC3W 3 (runCombo tmC3W 3 100).number) ∧
    (runCombo tmC3W 3 100).best? = (runCombo tmC3W 3 100).samples.min? :=
  C3_repeat_policy tmC3W 3 100

/-- A timer whose single calibration run takes five seconds, so that the
proportional reduction yields zero additional repeats. -/
def tmC9W : TimerModel :=
  { timeit := fun _ => 5, sample := fun _ _ => 7 }

/-- C9: whenever the capped loop count equals one, the sample list starts
with the calibration duration, hence is non-empty and its minimum is well
defined, even when `floor(repeat / x)` is zero. -/
theorem C9_min_nonempty (tm : TimerModel) (rep ml : ℤ)
    (h : (runCombo tm rep ml).number = 1) :
    (runCombo tm rep ml).x ∈ (runCombo tm rep ml).samples ∧
    (runCombo tm rep ml).samples ≠ [] ∧
    (runCombo tm rep ml).best?.isSome = true := by
  refine ⟨?_, ?_, ?_⟩
  · rw [runCombo_samples_eq, if_pos h]
    exact List.mem_cons_self _ _
  · rw [runCombo_samples_eq, if_pos h]
    simp
  · rw [runCombo_best, runCombo_samples_eq, if_pos h]
    simp [List.min?]

/-- Witness for C9 at a timer with zero additional repeats. -/
theorem C9_min_nonempty_witness :
    (runCombo tmC9W 3 100).number = 1 ∧
      ((runCombo tmC9W 3 100).x ∈ (runCombo tmC9W 3 100).samples ∧
       (runCombo tmC9W 3 100).samples ≠ [] ∧
       (runCombo tmC9W 3 100).best?.isSome = true) :=
  ⟨by with_unfolding_all decide,
    C9_min_nonempty tmC9W 3 100 (by with_unfolding_all decide)⟩

/-- A timer on which every measurement takes one second. -/
def tmOneW : TimerModel := { timeit := fun _ => 1, sample := fun _ _ => 1 }

/-- An environment built from `tmOneW`, without a memory pseudo-file. -/
def envOneW : Env :=
  { timer := fun _ => tmOneW, memInit := none,
    memBefore := fun _ => [], memAfter := fun _ => [] }

/-- A call whose snippet sequence mixes a callable first and a text
snippet second, together with one positional value. -/
def bC5W : BenchArgs :=
  { stmts0 := .pyList [.pyCallable "f", .pyStr "pass"],
    args := [.pyInt 3], keywords := [], repeatN := 3,
    setup := .pyStr "pass", memory_usage_req := false, maxloop := 100,
    verbose := 0 }

/-- C5 counterexample: a call supplying a text snippet (in second
position) together with a positional value completes without raising:
line 115 inspects only `stmts[0]`, which here is a callable. -/
theorem C5_counterexample : (benchmark envOneW bC5W).isOk = true := by
  with_unfolding_all decide

/-- C5 amended: the configuration error is raised, before any timing and
for every environment, exactly when the FIRST supplied snippet is source
text and at least one positional value is supplied (given that the
earlier `stmts` and `setup` validations pass). -/
theorem C5_text_with_args (env : Env) (b : BenchArgs)
    (stmts : List PyObj) (ss : List ℕ)
    (hs : stmtsSeq b.stmts0 = some (stmts, ss))
    (hall : stmts.any (fun s => !(isCallableObj s || isStrObj s)) = false)
    (hsetup : (isCallableObj b.setup || isStrObj b.setup) = true)
    (s0 : PyObj) (hhead : stmts.head? = some s0)
    (hstr : isStrObj s0 = true) (hargs : 0 < b.args.length) :
    benchmark env b = .error .valueErrorArgs := by
  have h1 : ¬ (stmts.any
      (fun s => !(isCallableObj s || isStrObj s)) = true) := by
    intro hc
    rw [hall] at hc
    exact Bool.noConfusion hc
  have h2 : ¬ ((!(isCallableObj b.setup || isStrObj b.setup)) = true) := by
    simp [hsetup]
  have h3 : (isStrObj s0 && decide (0 < b.args.length)) = true := by
    simp [hstr, hargs]
  unfold benchmark validate
  rw [hs]
  dsimp only
  rw [if_neg h1, if_neg h2, hhead]
  dsimp only
  rw [if_pos h3]

/-- A call whose single snippet is text, with one positional value. -/
def bC5AW : BenchArgs :=
  { stmts0 := .pyStr "f(x)", args := [.pyInt 3], keywords := [],
    repeatN := 3, setup := .pyStr "pass", memory_usage_req := false,
    maxloop := 100, verbose := 0 }

/-- Witness for the amended C5: text snippet first, one positional
value, so the call errors for every environment. -/
theorem C5_text_with_args_witness :
    stmtsSeq bC5AW.stmts0 = some ([.pyStr "f(x)"], []) ∧
    [PyObj.pyStr "f(x)"].any
      (fun s => !(isCallableObj s || isStrObj s)) = false ∧
    (isCallableObj bC5AW.setup || isStrObj bC5AW.setup) = true ∧
    [PyObj.pyStr "f(x)"].head? = some (.pyStr "f(x)") ∧
    isStrObj (.pyStr "f(x)") = true ∧
    0 < bC5AW.args.length ∧
    benchmark envOneW bC5AW = .error .valueErrorArgs :=
  ⟨rfl, rfl, rfl, rfl, rfl, by decide,
    C5_text_with_args envOneW bC5AW [.pyStr "f(x)"] [] rfl rfl rfl
      (.pyStr "f(x)") rfl rfl (by decide)⟩

/-- C7: a `maxloop` below one is rejected with the dedicated
configuration error, for every environment (hence before any snippet
execution or timing), provided the validations that the source performs
earlier in line order pass. -/
theorem C7_maxloop_eager (env : Env) (b : BenchArgs)
    (stmts : List PyObj) (ss : List ℕ)
    (hs : stmtsSeq b.stmts0 = some (stmts, ss))
    (hall : stmts.any (fun s => !(isCallableObj s || isStrObj s)) = false)
    (hsetup : (isCallableObj b.setup || isStrObj b.setup) = true)
    (s0 : PyObj) (hhead : stmts.head? = some s0)
    (hguard : (isStrObj s0 && decide (0 < b.args.length)) = false)
    (hml : b.maxloop < 1) :
    benchmark env b = .error .valueErrorMaxloop := by
  have h1 : ¬ (stmts.any
      (fun s => !(isCallableObj s || isStrObj s)) = true) := by
    intro hc
    rw [hall] at hc
    exact Bool.noConfusion hc
  have h2 : ¬ ((!(isCallableObj b.setup || isStrObj b.setup)) = true) := by
    simp [hsetup]
  have h3 : ¬ ((isStrObj s0 && decide (0 < b.args.length)) = true) := by
    simp [hguard]
  unfold benchmark validate
  rw [hs]
  dsimp only
  rw [if_neg h1, if_neg h2, hhead]
  dsimp only
  rw [if_neg h3, if_pos hml]

/-- A call with `maxloop = 0`. -/
def bC7W : BenchArgs :=
  { stmts0 := .pyStr "pass", args := [], keywords := [], repeatN := 3,
    setup := .pyStr "pass", memory_usage_req := false, maxloop := 0,
    verbose := 0 }

/-- Witness for C7 at `maxloop = 0`. -/
theorem C7_maxloop_eager_witness :
    stmtsSeq bC7W.stmts0 = some ([.pyStr "pass"], []) ∧
    [PyObj.pyStr "pass"].any
      (fun s => !(isCallableObj s || isStrObj s)) = false ∧
    (isCallableObj bC7W.setup || isStrObj bC7W.setup) = true ∧
    [PyObj.pyStr "pass"].head? = some (.pyStr "pass") ∧
    (isStrObj (.pyStr "pass") && decide (0 < bC7W.args.length)) = false ∧
    bC7W.maxloop < 1 ∧
    benchmark envOneW bC7W = .error .valueErrorMaxloop :=
  ⟨rfl, rfl, rfl, rfl, by decide, by decide,
    C7_maxloop_eager envOneW bC7W [.pyStr "pass"] [] rfl rfl rfl
      (.pyStr "pass") rfl (by decide) (by decide)⟩

theorem reverse_eq_self_of_short {ss : List ℕ}
    (h : ss = [] ∨ ∃ n, ss = [n]) : ss.reverse = ss := by
  rcases h with h | ⟨n, h⟩ <;> subst h <;> rfl

theorem shapeOf_reverse (b : BenchArgs) {ss : List ℕ}
    (hss : ss = [] ∨ ∃ n, ss = [n]) :
    (shapeOf b ss).reverse =
      ss ++ (keywordsloopOf b).map (fun kv => kv.2.length) ++
        (argsloopOf b).map List.length := by
  unfold shapeOf
  rw [List.reverse_append, List.reverse_append, List.reverse_reverse,
    List.reverse_reverse, reverse_eq_self_of_short hss]
  simp [List.append_assoc]

/-- A call with two callable snippets and one positional sweep of length
three. -/
def bC1W : BenchArgs :=
  { stmts0 := .pyList [.pyCallable "f", .pyCallable "g"],
    args := [.pyList [.pyInt 1, .pyInt 2, .pyInt 3]], keywords := [],
    repeatN := 3, setup := .pyStr "pass", memory_usage_req := false,
    maxloop := 100, verbose := 0 }

/-- C1 counterexample: with two snippets and one declared positional
sweep of length three, the returned time tensor has shape [2, 3] — the
snippet axis leads and the sweep axis trails — while the claim predicts
shape [3, 2] with the first declared sweep leading and the snippet axis
trailing. -/
theorem C1_counterexample :
    ((benchmark envOneW bC1W).map (fun r => r.time.shape)) =
        .ok [2, 3] ∧
      ([2, 3] : List ℕ) ≠ [3, 2] := by
  constructor
  · with_unfolding_all rfl
  · decide

/-- C1 amended: for every call accepted by validation, the returned info
and time tensors have shape equal to the reverse of the flat reshape
shape, namely: the statement axis first (when a snippet sequence was
supplied), then the swept keyword lengths in ascending key order, then
the swept positional lengths in declaration order — so the snippet axis
leads and the last declared positional sweep trails. -/
theorem C1_shape (env : Env) (b : BenchArgs) (res : BenchResult)
    (stmts : List PyObj) (ss : List ℕ)
    (hv : validate b = .ok (stmts, ss))
    (h : benchmark env b = .ok res) :
    res.time.shape =
      ss ++ (keywordsloopOf b).map (fun kv => kv.2.length) ++
        (argsloopOf b).map List.length ∧
    res.info.shape =
      ss ++ (keywordsloopOf b).map (fun kv => kv.2.length) ++
        (argsloopOf b).map List.length := by
  obtain ⟨stmts2, ss2, ns, outs, hv2, hn, hc, hres⟩ := benchmark_ok_elim h
  rw [hv] at hv2
  simp only [Except.ok.injEq, Prod.mk.injEq] at hv2
  obtain ⟨he1, he2⟩ := hv2
  subst he1
  subst he2
  have hshort : ss = [] ∨ ∃ n, ss = [n] := by
    rcases stmtsSeq_shape (validate_ok_facts hv).1 with ⟨h1, _⟩ | h1
    · exact Or.inl h1
    · exact Or.inr ⟨stmts.length, h1⟩
  subst hres
  constructor
  · show (Tensor.transposeT _ _).shape = _
    rw [transposeT_shape]
    exact shapeOf_reverse b hshort
  · show (Tensor.transposeT _ _).shape = _
    rw [transposeT_shape]
    exact shapeOf_reverse b hshort

/-- A minimal accepted call: a single text snippet, no sweeps. -/
def bPassW : BenchArgs :=
  { stmts0 := .pyStr "pass", args := [], keywords := [], repeatN := 3,
    setup := .pyStr "pass", memory_usage_req := false, maxloop := 100,
    verbose := 0 }

/-- The result of the minimal call, extracted for witnesses. -/
def resPassW : BenchResult :=
  (benchmark envOneW bPassW).toOption.getD ⟨⟨[], []⟩, ⟨[], []⟩, [], 0, []⟩

/-- Witness for the amended C1 on the minimal accepted call. -/
theorem C1_shape_witness :
    validate bPassW = .ok ([.pyStr "pass"], []) ∧
    benchmark envOneW bPassW = .ok resPassW ∧
    (resPassW.time.shape =
      [] ++ (keywordsloopOf bPassW).map (fun kv => kv.2.length) ++
        (argsloopOf bPassW).map List.length ∧
     resPassW.info.shape =
      [] ++ (keywordsloopOf bPassW).map (fun kv => kv.2.length) ++
        (argsloopOf bPassW).map List.length) :=
  ⟨rfl, by with_unfolding_all rfl,
    C1_shape envOneW bPassW resPassW [.pyStr "pass"] [] rfl
      (by with_unfolding_all rfl)⟩

theorem number_le_maxloop (tm : TimerModel) (rep ml : ℤ) (h : 1 ≤ ml) :
    ((runCombo tm rep ml).number : ℤ) ≤ ml := by
  rw [runCombo_number]
  calc ((min (calibrate tm ml).1 ml.toNat : ℕ) : ℤ)
      ≤ (ml.toNat : ℤ) := by exact_mod_cast Nat.min_le_right _ _
    _ = ml := Int.toNat_of_nonneg (by omega)

/-- C4: every value stored in the returned time tensor equals the
minimum of the repeat samples collected for some combination divided by
the loop count chosen for it, and that loop count never exceeds
`maxloop`. -/
theorem C4_time_value (env : Env) (b : BenchArgs) (res : BenchResult)
    (h : benchmark env b = .ok res) :
    ∀ v ∈ res.time.data, ∃ j bst,
      (runCombo (env.timer j) b.repeatN b.maxloop).samples.min? =
        some bst ∧
      v = bst / ((runCombo (env.timer j) b.repeatN b.maxloop).number : ℚ) ∧
      ((runCombo (env.timer j) b.repeatN b.maxloop).number : ℤ) ≤
        b.maxloop := by
  obtain ⟨stmts, ss, ns, outs, hv, hn, hc, hres⟩ := benchmark_ok_elim h
  have hml : 1 ≤ b.maxloop := (validate_ok_facts hv).2
  have hprod : listProd ss = stmts.length :=
    stmtsSeq_prod (validate_ok_facts hv).1
  have houts : outs.length = (combosOf b stmts).length := by
    have h1 := exceptAll_ok_length hc
    rw [List.length_map, List.enum_length] at h1
    exact h1
  have hlen : (outs.map
      (fun o => o.best / (o.ct.number : ℚ))).length =
      listProd (shapeOf b ss) := by
    rw [List.length_map, houts, prod_shapeOf b hprod]
  subst hres
  intro v hvd
  have hvd2 : v ∈ ((Tensor.mk (shapeOf b ss)
      (outs.map (fun o => o.best / (o.ct.number : ℚ)))).transposeT
        0).data := hvd
  obtain ⟨j, hj, hval⟩ := transposeT_data_mem hlen v hvd2
  have hj2 : j < outs.length := by
    have := hj
    rw [List.length_map] at this
    exact this
  obtain ⟨c, bst, hcj, hbst, hout⟩ := comboOutsOf_ok_get hc j hj2
  refine ⟨j, bst, ?_, ?_, number_le_maxloop _ _ _ hml⟩
  · rw [← runCombo_best]
    exact hbst
  · rw [hval]
    have hmap : (outs.map (fun o => o.best / (o.ct.number : ℚ))).get
        ⟨j, hj⟩ = (outs.get ⟨j, hj2⟩).best /
          ((outs.get ⟨j, hj2⟩).ct.number : ℚ) := by
      simp [List.get_map]
    rw [hmap, hout]

/-- Witness for C4 on the minimal accepted call. -/
theorem C4_time_value_witness :
    benchmark envOneW bPassW = .ok resPassW ∧
      (∀ v ∈ resPassW.time.data, ∃ j bst,
        (runCombo (envOneW.timer j) bPassW.repeatN
          bPassW.maxloop).samples.min? = some bst ∧
        v = bst / ((runCombo (envOneW.timer j) bPassW.repeatN
          bPassW.maxloop).number : ℚ) ∧
        ((runCombo (envOneW.timer j) bPassW.repeatN
          bPassW.maxloop).number : ℤ) ≤ bPassW.maxloop) :=
  ⟨by with_unfolding_all rfl,
    C4_time_value envOneW bPassW resPassW (by with_unfolding_all rfl)⟩

theorem s256_length_le (s : String) : (s256 s).length ≤ 256 := by
  show (s.data.take 256).length ≤ 256
  rw [List.length_take]
  exact Nat.min_le_left _ _

theorem s256_ne_of_long {s : String} (h : 256 < s.length) : s256 s ≠ s := by
  intro he
  have h1 : (s256 s).length = s.length := by rw [he]
  have h2 : (s256 s).length ≤ 256 := s256_length_le s
  omega

theorem msgOf_label_first (b : BenchArgs) (dm : Bool) (o : ComboOut) :
    ∃ rest, msgOf b dm o = o.label ++ rest := by
  unfold msgOf
  dsimp only
  cases dm <;> by_cases h1 : b.verbose = 1 <;>
    simp only [h1, if_true, if_false, Bool.false_eq_true, reduceIte] <;>
    exact ⟨_, by simp only [String.append_assoc]; rfl⟩

/-- C10: every label stored in the returned info tensor is the
256-character (byte) truncation of the label formatted for some
combination of the run — hence at most 256 long, and different from the
label when that label exceeds 256 — while each verbose line, printed
when verbosity is positive, embeds the full untruncated label as its
prefix. -/
theorem C10_info_truncation (env : Env) (b : BenchArgs)
    (res : BenchResult) (stmts : List PyObj) (ss ns : List ℕ)
    (outs : List ComboOut)
    (hv : validate b = .ok (stmts, ss))
    (hn : nspacesOf b stmts = .ok ns)
    (hc : comboOutsOf env b stmts ss ns
      (memSetup env b.memory_usage_req).1 = .ok outs)
    (h : benchmark env b = .ok res) :
    (∀ v ∈ res.info.data, v.length ≤ 256 ∧
      ∃ o ∈ outs, v = s256 o.label ∧
        (256 < o.label.length → v ≠ o.label)) ∧
    (0 < b.verbose →
      res.printed = outs.map
        (msgOf b (memSetup env b.memory_usage_req).1)) ∧
    (∀ o ∈ outs, ∃ rest,
      msgOf b (memSetup env b.memory_usage_req).1 o = o.label ++ rest) := by
  obtain ⟨stmts2, ss2, ns2, outs2, hv2, hn2, hc2, hres⟩ :=
    benchmark_ok_elim h
  rw [hv] at hv2
  simp only [Except.ok.injEq, Prod.mk.injEq] at hv2
  obtain ⟨he1, he2⟩ := hv2
  subst he1
  subst he2
  rw [hn] at hn2
  simp only [Except.ok.injEq] at hn2
  subst hn2
  rw [hc] at hc2
  simp only [Except.ok.injEq] at hc2
  subst hc2
  have hprod : listProd ss = stmts.length :=
    stmtsSeq_prod (validate_ok_facts hv).1
  have houts : outs.length = (combosOf b stmts).length := by
    have h1 := exceptAll_ok_length hc
    rw [List.length_map, List.enum_length] at h1
    exact h1
  have hlen : (outs.map (fun o => s256 o.label)).length =
      listProd (shapeOf b ss) := by
    rw [List.length_map, houts, prod_shapeOf b hprod]
  subst hres
  refine ⟨?_, ?_, fun o _ => msgOf_label_first b _ o⟩
  · intro v hvd
    have hvd2 : v ∈ ((Tensor.mk (shapeOf b ss)
        (outs.map (fun o => s256 o.label))).transposeT "").data := hvd
    obtain ⟨j, hj, hval⟩ := transposeT_data_mem hlen v hvd2
    have hj2 : j < outs.length := by
      have := hj
      rw [List.length_map] at this
      exact this
    have hmap : (outs.map (fun o => s256 o.label)).get ⟨j, hj⟩ =
        s256 (outs.get ⟨j, hj2⟩).label := by
      simp [List.get_map]
    rw [hval, hmap]
    refine ⟨s256_length_le _, outs.get ⟨j, hj2⟩, List.get_mem outs j hj2,
      rfl, fun hlong => s256_ne_of_long hlong⟩
  · intro hverb
    show (if b.verbose > 0 then _ else []) = _
    rw [if_pos hverb]

/-- The minimal accepted call, at verbosity one. -/
def bC10W : BenchArgs :=
  { stmts0 := .pyStr "pass", args := [], keywords := [], repeatN := 3,
    setup := .pyStr "pass", memory_usage_req := false, maxloop := 100,
    verbose := 1 }

/-- The result of the verbose minimal call. -/
def resC10W : BenchResult :=
  (benchmark envOneW bC10W).toOption.getD ⟨⟨[], []⟩, ⟨[], []⟩, [], 0, []⟩

/-- The loop outputs of the verbose minimal call. -/
def outsC10W : List ComboOut :=
  (comboOutsOf envOneW bC10W [.pyStr "pass"] [] [6] false).toOption.getD []

/-- Witness for C10 on the verbose minimal call. -/
theorem C10_info_truncation_witness :
    validate bC10W = .ok ([.pyStr "pass"], []) ∧
    nspacesOf bC10W [.pyStr "pass"] = .ok [6] ∧
    comboOutsOf envOneW bC10W [.pyStr "pass"] [] [6]
      (memSetup envOneW bC10W.memory_usage_req).1 = .ok outsC10W ∧
    benchmark envOneW bC10W = .ok resC10W ∧
    ((∀ v ∈ resC10W.info.data, v.length ≤ 256 ∧
        ∃ o ∈ outsC10W, v = s256 o.label ∧
          (256 < o.label.length → v ≠ o.label)) ∧
      (0 < bC10W.verbose →
        resC10W.printed = outsC10W.map
          (msgOf bC10W (memSetup envOneW bC10W.memory_usage_req).1)) ∧
      (∀ o ∈ outsC10W, ∃ rest,
        msgOf bC10W (memSetup envOneW bC10W.memory_usage_req).1 o =
          o.label ++ rest)) :=
  ⟨rfl, by with_unfolding_all rfl, by with_unfolding_all rfl,
    by with_unfolding_all rfl,
    C10_info_truncation envOneW bC10W resC10W [.pyStr "pass"] [] [6]
      outsC10W rfl (by with_unfolding_all rfl)
      (by with_unfolding_all rfl) (by with_unfolding_all rfl)⟩

/-- C8: when memory sampling is requested but the initial snapshot
raises an I/O error, the whole call behaves exactly like the same call
without memory sampling, except that the one failed sampler invocation
of the setup phase is recorded: sampling is disabled for the entire run
(no further sampler calls), the call completes normally whenever the
plain call does, and an accepted result carries no per-metric memory
tensors and exactly one sampler invocation. -/
theorem C8_memory_ioerror (env : Env) (b : BenchArgs)
    (hio : env.memInit = none) (hreq : b.memory_usage_req = true) :
    benchmark env b =
      (benchmark env { b with memory_usage_req := false }).map
        (fun r => { r with memCalls := r.memCalls + 1 }) ∧
    (∀ res, benchmark env b = .ok res →
      res.mem = [] ∧ res.memCalls = 1) := by
  have h3 : memSetup env b.memory_usage_req = (false, [], 1) := by
    rw [hreq]
    unfold memSetup
    rw [hio]
    rfl
  have hmain : benchmark env b =
      (benchmark env { b with memory_usage_req := false }).map
        (fun r => { r with memCalls := r.memCalls + 1 }) := by
    unfold benchmark
    have h1 : validate { b with memory_usage_req := false } =
        validate b := rfl
    rw [h1]
    cases hv : validate b with
    | error e => rfl
    | ok p =>
      obtain ⟨stmts, ss⟩ := p
      dsimp only
      unfold runBench
      dsimp only
      have hns : nspacesOf { b with memory_usage_req := false } stmts =
          nspacesOf b stmts := rfl
      rw [hns, h3]
      cases hn : nspacesOf b stmts with
      | error e => rfl
      | ok ns =>
        dsimp only
        have hco : comboOutsOf env { b with memory_usage_req := false }
            stmts ss ns
            (memSetup env
              ({ b with memory_usage_req := false }).memory_usage_req).1 =
            comboOutsOf env b stmts ss ns false := rfl
        rw [hco]
        cases hc : comboOutsOf env b stmts ss ns false with
        | error e => rfl
        | ok outs => rfl
  refine ⟨hmain, fun res hres => ?_⟩
  rw [hmain] at hres
  cases hb2 : benchmark env { b with memory_usage_req := false } with
  | error e => rw [hb2] at hres; exact absurd hres (by simp [Except.map])
  | ok r =>
    rw [hb2] at hres
    simp only [Except.map, Except.ok.injEq] at hres
    obtain ⟨stmts, ss, ns, outs, hv2, hn2, hc2, hr2⟩ :=
      benchmark_ok_elim hb2
    have hms : memSetup env
        ({ b with memory_usage_req := false }).memory_usage_req =
        (false, [], 0) := rfl
    rw [hms] at hr2
    subst hr2
    rw [← hres]
    unfold assembleResult
    dsimp only
    refine ⟨rfl, ?_⟩
    simp

/-- The minimal call with memory sampling requested. -/
def bC8W : BenchArgs :=
  { stmts0 := .pyStr "pass", args := [], keywords := [], repeatN := 3,
    setup := .pyStr "pass", memory_usage_req := true, maxloop := 100,
    verbose := 0 }

/-- Witness for C8: `envOneW` has no memory pseudo-file. -/
theorem C8_memory_ioerror_witness :
    envOneW.memInit = none ∧ bC8W.memory_usage_req = true ∧
    (benchmark envOneW bC8W =
      (benchmark envOneW { bC8W with memory_usage_req := false }).map
        (fun r => { r with memCalls := r.memCalls + 1 }) ∧
     (∀ res, benchmark envOneW bC8W = .ok res →
       res.mem = [] ∧ res.memCalls = 1)) :=
  ⟨rfl, rfl, C8_memory_ioerror envOneW bC8W rfl rfl⟩

theorem forall₂_get?_exists {R : α → β → Prop} {xs : List α}
    {ys : List β} (h : List.Forall₂ R xs ys) :
    ∀ i y, ys.get? i = some y → ∃ x, xs.get? i = some x ∧ R x y := by
  induction h with
  | nil => intro i y hy; simp at hy
  | cons hr _ ih =>
    intro i y hy
    cases i with
    | zero =>
      simp only [List.get?] at hy ⊢
      cases hy
      exact ⟨_, rfl, hr⟩
    | succ j =>
      simp only [List.get?] at hy ⊢
      exact ih j y hy

/-- A fixed input normalizes to the singleton of its value. -/
theorem normalizeInput_fixed {a : PyObj} (h : isIterType a = false) :
    normalizeInput a = [a] := by
  cases a <;> simp_all [isIterType, normalizeInput]

theorem filter_orderedInsert_not {α : Type} {p : α → Bool}
    (r : α → α → Prop) [DecidableRel r] {x : α} (hx : p x = false) :
    ∀ L : List α, (L.orderedInsert r x).filter p = L.filter p := by
  intro L
  induction L with
  | nil => simp [List.orderedInsert, List.filter_cons, hx]
  | cons b l ih =>
    by_cases hr : r x b
    · rw [List.orderedInsert, if_pos hr, List.filter_cons, hx]
      simp
    · rw [List.orderedInsert, if_neg hr, List.filter_cons,
        List.filter_cons, ih]

theorem sortByKey_cons (k : String) (v : PyObj)
    (l : List (String × PyObj)) :
    sortByKey ((k, v) :: l) =
      (sortByKey l).orderedInsert (fun x y => x.1 ≤ y.1) (k, v) := rfl

theorem keywordsloopOf_fixed_cons (b : BenchArgs) (k : String)
    (v : PyObj) (h : isIterType v = false) :
    keywordsloopOf { b with keywords := (k, v) :: b.keywords } =
      keywordsloopOf b := by
  rw [keywordsloopOf_eq, keywordsloopOf_eq]
  have hb : BenchArgs.keywords { b with keywords := (k, v) :: b.keywords }
      = (k, v) :: b.keywords := rfl
  rw [hb, sortByKey_cons,
    filter_orderedInsert_not (fun x y : String × PyObj => x.1 ≤ y.1)
      (x := (k, v)) h (sortByKey b.keywords)]

theorem argsloopOf_fixed (b : BenchArgs) (pre post : List PyObj)
    (a : PyObj) (ha : isIterType a = false)
    (hargs : b.args = pre ++ a :: post) :
    argsloopOf b = argsloopOf { b with args := pre ++ post } := by
  rw [argsloopOf_eq, argsloopOf_eq]
  have hb : ({ b with args := pre ++ post } : BenchArgs).args =
      pre ++ post := rfl
  rw [hb, hargs, List.filter_append, List.filter_cons, ha,
    List.filter_append]
  simp

theorem zip_keys_forall₂ {kws : List (String × List PyObj)} :
    ∀ {ws : List PyObj}, List.Forall₂ (· ∈ ·) ws (kws.map (·.2)) →
      List.Forall₂
        (fun (kv : String × PyObj) (nkv : String × List PyObj) =>
          kv.1 = nkv.1 ∧ kv.2 ∈ nkv.2)
        ((kws.map (·.1)).zip ws) kws := by
  induction kws with
  | nil =>
    intro ws h
    cases h
    exact List.Forall₂.nil
  | cons nk rest ih =>
    intro ws h
    cases h with
    | cons hw hws => exact List.Forall₂.cons ⟨rfl, hw⟩ (ih hws)

theorem mem_iterkeywords {kws : List (String × List PyObj)} :
    ∀ out ∈ _iterkeywords kws,
      List.Forall₂
        (fun (kv : String × PyObj) (nkv : String × List PyObj) =>
          kv.1 = nkv.1 ∧ kv.2 ∈ nkv.2) out kws := by
  intro out hout
  simp only [_iterkeywords, List.mem_map] at hout
  obtain ⟨vals, hvals, hout⟩ := hout
  subst hout
  have h1 : List.Forall₂ (· ∈ ·) vals ((kws.map (·.2)).reverse) :=
    mem_pyProduct _ hvals
  have h2 : List.Forall₂ (· ∈ ·) vals.reverse (kws.map (·.2)) := by
    have := List.rel_reverse h1
    simpa using this
  exact zip_keys_forall₂ h2

/-- The shape of the combinations of a call: the positional values of
every combination come from the product of the normalized positional
sequences, the keyword bindings from `_iterkeywords`. -/
theorem combosOf_mem {b : BenchArgs} {stmts : List PyObj} :
    ∀ c ∈ combosOf b stmts,
      c.arg ∈ pyProduct (argsNOf b) ∧
        c.kw ∈ _iterkeywords (keywordsNOf b) := by
  intro c hc
  simp only [combosOf, List.mem_flatMap, List.mem_map] at hc
  obtain ⟨a, ha, kw, hkw, st, _, hcc⟩ := hc
  subst hcc
  exact ⟨ha, hkw⟩

/-- C6: an input whose value is not a list, tuple, generator or range is
fixed: it contributes no axis to the reshape shape and is broadcast to
every enumerated combination, both as a positional input (at any
position among the other inputs) and as a keyword input. -/
theorem C6_fixed_inputs :
    (∀ (b : BenchArgs) (pre post : List PyObj) (a : PyObj) (ss : List ℕ)
      (stmts : List PyObj),
      isIterType a = false → b.args = pre ++ a :: post →
      shapeOf b ss = shapeOf { b with args := pre ++ post } ss ∧
      ∀ c ∈ combosOf b stmts, c.arg.get? pre.length = some a) ∧
    (∀ (b : BenchArgs) (k : String) (v : PyObj) (ss : List ℕ)
      (stmts : List PyObj),
      isIterType v = false →
      shapeOf { b with keywords := (k, v) :: b.keywords } ss =
        shapeOf b ss ∧
      ∀ c ∈ combosOf { b with keywords := (k, v) :: b.keywords } stmts,
        (k, v) ∈ c.kw) := by
  constructor
  · intro b pre post a ss stmts ha hargs
    constructor
    · unfold shapeOf
      rw [argsloopOf_fixed b pre post a ha hargs]
      have hkw : keywordsloopOf { b with args := pre ++ post } =
          keywordsloopOf b := rfl
      rw [hkw]
    · intro c hc
      have harg := (combosOf_mem c hc).1
      have hf : List.Forall₂ (· ∈ ·) c.arg (argsNOf b) :=
        mem_pyProduct _ harg
      have hget : (argsNOf b).get? pre.length =
          some (normalizeInput a) := by
        unfold argsNOf
        rw [hargs, List.get?_eq_getElem?, List.getElem?_map]
        have hlen : pre.length ≤ (pre ++ a :: post).length := by
          simp [List.length_append]
        rw [List.getElem?_append_right (by omega)]
        simp
      obtain ⟨x, hx, hmem⟩ :=
        forall₂_get?_exists hf pre.length (normalizeInput a) hget
      rw [normalizeInput_fixed ha] at hmem
      simp only [List.mem_singleton] at hmem
      subst hmem
      exact hx
  · intro b k v ss stmts hv
    constructor
    · unfold shapeOf
      rw [keywordsloopOf_fixed_cons b k v hv]
      have hargs : argsloopOf { b with keywords := (k, v) :: b.keywords }
          = argsloopOf b := rfl
      rw [hargs]
    · intro c hc
      have hkwmem := (combosOf_mem c hc).2
      have hf := mem_iterkeywords c.kw hkwmem
      have hkv : (k, normalizeInput v) ∈
          keywordsNOf { b with keywords := (k, v) :: b.keywords } := by
        unfold keywordsNOf
        have hb : ({ b with keywords := (k, v) :: b.keywords } :
            BenchArgs).keywords = (k, v) :: b.keywords := rfl
        rw [hb, sortByKey_cons]
        have hperm := List.perm_orderedInsert
          (fun x y : String × PyObj => x.1 ≤ y.1) (k, v)
          (sortByKey b.keywords)
        have : (k, v) ∈ (sortByKey b.keywords).orderedInsert
            (fun x y : String × PyObj => x.1 ≤ y.1) (k, v) :=
          hperm.mem_iff.mpr (List.mem_cons_self _ _)
        exact List.mem_map_of_mem
          (fun kv => (kv.1, normalizeInput kv.2)) this
      obtain ⟨i, hi⟩ := List.get?_of_mem hkv
      obtain ⟨x, hx, hx1, hx2⟩ := forall₂_get?_exists hf i _ hi
      rw [normalizeInput_fixed hv] at hx2
      simp only [List.mem_singleton] at hx2
      have hxe : x = (k, v) := by
        cases x
        simp only at hx1 hx2
        rw [hx1, hx2]
      rw [← hxe]
      exact List.get?_mem hx

/-- A call with one fixed positional input ahead of a swept one, and one
swept keyword. -/
def bC6W : BenchArgs :=
  { stmts0 := .pyStr "s",
    args := [.pyInt 7, .pyList [.pyInt 1, .pyInt 2]],
    keywords := [("m", .pyTuple [.pyInt 3, .pyInt 4])], repeatN := 3,
    setup := .pyStr "pass", memory_usage_req := false, maxloop := 100,
    verbose := 0 }

/-- Witness for C6: the fixed positional value 7 and the fixed keyword
`n = 5`. -/
theorem C6_fixed_inputs_witness :
    isIterType (.pyInt 7) = false ∧
    bC6W.args = [] ++ PyObj.pyInt 7 :: [.pyList [.pyInt 1, .pyInt 2]] ∧
    (shapeOf bC6W [] =
        shapeOf { bC6W with
          args := [] ++ [PyObj.pyList [.pyInt 1, .pyInt 2]] } [] ∧
      ∀ c ∈ combosOf bC6W [.pyStr "s"],
        c.arg.get? 0 = some (.pyInt 7)) ∧
    isIterType (.pyInt 5) = false ∧
    (shapeOf { bC6W with
        keywords := ("n", PyObj.pyInt 5) :: bC6W.keywords } [] =
        shapeOf bC6W [] ∧
      ∀ c ∈ combosOf { bC6W with
          keywords := ("n", PyObj.pyInt 5) :: bC6W.keywords } [.pyStr "s"],
        ("n", PyObj.pyInt 5) ∈ c.kw) :=
  ⟨rfl, rfl,
    C6_fixed_inputs.1 bC6W [] [.pyList [.pyInt 1, .pyInt 2]] (.pyInt 7)
      [] [.pyStr "s"] rfl rfl,
    rfl,
    C6_fixed_inputs.2 bC6W "n" (.pyInt 5) [] [.pyStr "s"] rfl⟩

end Pybench
